import Mathlib

/-
Verification of the data model and access layer of the `spreadsheet` crate
(src/lib.rs): cell type inference, table construction from a line source,
numeric and symbolic indexing, and the three iterator families
(RowIter, ColIter, Iter).

Modelling conventions:
- Rust strings are Lean `String`s; `str::split` on the delimiter character
  is modelled by an explicit recursion over the character list.
- The line source (`BufReader::lines`) is a `List (Except ε String)`:
  `Except.ok` a successfully read line, `Except.error` a read failure.
- `i32` parsing is modelled exactly (sign, digits, 32-bit range check).
- `f32` parsing is modelled by the acceptance grammar of
  `core::num::dec2flt` (sign, inf/infinity/nan case-insensitively, or
  digits [. digits] [(e|E) sign digits]); the numeric payload of a finite
  float is kept as the exact rational denoted by the literal, since every
  float value appearing in a property below is exactly representable and
  no property depends on binary32 rounding.
- Rust panics (slice indexing out of bounds, Option::unwrap on None) are
  modelled by `Option`: `none` is a panic of the indexing operation.
- Rust iterators are modelled by a step function `σ → Option (item × σ)`;
  `collectIter` runs a step function with explicit fuel, stopping early at
  the first `none`, which is observationally the Rust `collect` whenever
  the iterator is finite (and exposes non-termination as fuel-dependence).
-/

set_option autoImplicit false

namespace Spread

/-- Value carried by a float cell. A finite value is the exact rational
denoted by the accepted literal (binary32 rounding is not modelled; every
float value used in the properties below is exactly representable). -/
inductive F32Val where
  | finite (q : ℚ)
  | inf (neg : Bool)
  | nan
  deriving DecidableEq

/-- One cell of the spreadsheet (`enum Cell`, src/lib.rs lines 12-21). -/
inductive Cell where
  | String (s : String)
  | Float (v : F32Val)
  | Integer (x : Int)
  | Empty
  deriving DecidableEq

/-- Decimal value of a digit list, most significant digit first. -/
def digitsValAux (acc : Nat) : List Char → Nat
  | [] => acc
  | c :: cs => digitsValAux (acc * 10 + (c.toNat - 48)) cs

/-- Decimal value of a digit list. -/
def digitsVal (l : List Char) : Nat := digitsValAux 0 l

/-- Shared body of `i32::from_str` after the sign is stripped: one or more
ASCII digits, value within the 32-bit range for the given sign. -/
def i32Core (neg : Bool) (l : List Char) : Option Int :=
  if l.isEmpty then none
  else if l.all Char.isDigit then
    let n := digitsVal l
    if neg then
      if n ≤ 2147483648 then some (-(n : Int)) else none
    else
      if n ≤ 2147483647 then some (n : Int) else none
  else none

/-- Rust `<i32 as FromStr>::from_str`: optional leading sign, then one or
more ASCII digits, and the value must fit in `i32`. Models
`cell.parse::<i32>()` (src/lib.rs line 132). -/
def parseI32 (s : String) : Option Int :=
  match s.data with
  | '+' :: rest => i32Core false rest
  | '-' :: rest => i32Core true rest
  | l => i32Core false l

/-- ASCII lower-casing, for the case-insensitive float literals. -/
def asciiLower (c : Char) : Char :=
  if 'A' ≤ c ∧ c ≤ 'Z' then Char.ofNat (c.toNat + 32) else c

/-- Exponent suffix of a float literal: empty, or (e|E) sign? digits. -/
def parseExpSuffix : List Char → Option Int
  | [] => some 0
  | c :: rest =>
    if c = 'e' ∨ c = 'E' then
      match rest with
      | '+' :: r =>
        if r.isEmpty then none
        else if r.all Char.isDigit then some ((digitsVal r : Int)) else none
      | '-' :: r =>
        if r.isEmpty then none
        else if r.all Char.isDigit then some (-(digitsVal r : Int)) else none
      | r =>
        if r.isEmpty then none
        else if r.all Char.isDigit then some ((digitsVal r : Int)) else none
    else none

/-- Exact rational value of the decimal literal with integer digits `ip`,
fraction digits `fp`, decimal exponent `e`, and sign `neg`. -/
def decValue (neg : Bool) (ip fp : List Char) (e : Int) : ℚ :=
  let m : Int := (digitsVal (ip ++ fp) : Int)
  let msigned : Int := if neg then -m else m
  let eAdj : Int := e - (fp.length : Int)
  if 0 ≤ eAdj then mkRat (msigned * (10 : Int) ^ eAdj.toNat) 1
  else mkRat msigned ((10 : Nat) ^ (-eAdj).toNat)

/-- Rust `<f32 as FromStr>::from_str` (core::num::dec2flt): optional sign,
then `inf` | `infinity` | `nan` (ASCII case-insensitive) or a decimal
number `digits [. digits] [(e|E) sign? digits]` with at least one mantissa
digit and nothing left over. Models `cell.parse::<f32>()`
(src/lib.rs line 134); finite values are kept as exact rationals. -/
def parseF32 (s : String) : Option F32Val :=
  let signSplit : Bool × List Char :=
    match s.data with
    | '+' :: r => (false, r)
    | '-' :: r => (true, r)
    | r => (false, r)
  let neg := signSplit.1
  let body := signSplit.2
  if body.map asciiLower = "inf".data ∨ body.map asciiLower = "infinity".data then
    some (F32Val.inf neg)
  else if body.map asciiLower = "nan".data then
    some F32Val.nan
  else
    let ip := body.takeWhile Char.isDigit
    let r1 := body.dropWhile Char.isDigit
    match r1 with
    | '.' :: r2 =>
      let fp := r2.takeWhile Char.isDigit
      let r3 := r2.dropWhile Char.isDigit
      if ip.isEmpty && fp.isEmpty then none
      else
        match parseExpSuffix r3 with
        | some e => some (F32Val.finite (decValue neg ip fp e))
        | none => none
    | rest =>
      if ip.isEmpty then none
      else
        match parseExpSuffix rest with
        | some e => some (F32Val.finite (decValue neg ip [] e))
        | none => none

/-- Rust `<String as FromStr>::from_str`: infallible, the field verbatim.
Models `cell.parse::<String>()` (src/lib.rs line 136). -/
def parseStr (s : String) : Option String := some s

/-- Rust `str::split` with a char separator: the (possibly empty) pieces
between separators; the empty string splits to `[""]`. -/
def splitCellsAux (delim : Char) (acc : List Char) : List Char → List String
  | [] => [String.mk acc.reverse]
  | c :: cs =>
    if c = delim then String.mk acc.reverse :: splitCellsAux delim [] cs
    else splitCellsAux delim (c :: acc) cs

/-- Split a line into its raw fields on the delimiter character. -/
def splitCells (delim : Char) (s : String) : List String :=
  splitCellsAux delim [] s.data

/-- Error type of `Spreadsheet::read`: the code maps every in-loop failure
to `io::ErrorKind::UnexpectedEof` (src/lib.rs lines 139 and 143). -/
inductive ReadErr where
  | unexpectedEof
  deriving DecidableEq

/-- The if/else-if chain of `Spreadsheet::read` building one `Cell` from one
raw field (src/lib.rs lines 131-141): try `i32`, then `f32`, then `String`;
the final else (unreachable, as `parseStr` is total) reports
`UnexpectedEof`. -/
def parseCellE (s : String) : Except ReadErr Cell :=
  match parseI32 s with
  | some x => Except.ok (Cell.Integer x)
  | none =>
    match parseF32 s with
    | some v => Except.ok (Cell.Float v)
    | none =>
      match parseStr s with
      | some t => Except.ok (Cell.String t)
      | none => Except.error ReadErr.unexpectedEof

/-- The inner for-loop of `Spreadsheet::read` over the fields of one line:
build the row of cells, propagating the (unreachable) parse failure. -/
def parseFields : List String → Except ReadErr (List Cell)
  | [] => Except.ok []
  | f :: fs =>
    match parseCellE f with
    | Except.error e => Except.error e
    | Except.ok c =>
      match parseFields fs with
      | Except.error e => Except.error e
      | Except.ok cs => Except.ok (c :: cs)

/-- Total form of the type-inference chain: the unique cell a raw field
produces (i32, else f32, else verbatim text). `parseCellE` is proved below
to always succeed with this value. -/
def inferCell (s : String) : Cell :=
  match parseI32 s with
  | some x => Cell.Integer x
  | none =>
    match parseF32 s with
    | some v => Cell.Float v
    | none => Cell.String s

/-- The Spreadsheet struct (src/lib.rs lines 24-34): header names, cached
row and column counts, and the flat row-major cell buffer. -/
structure Spreadsheet where
  headers : List String
  rows : Nat
  cols : Nat
  data : List Cell
  deriving DecidableEq

/-- The while-let loop of `Spreadsheet::read` (src/lib.rs lines 129-147):
consume lines until the source is exhausted or yields a read error (a
`Some(Err(_))` fails the while-let pattern and merely ends the loop), parse
each line into cells, and require its field count to equal the header
count. -/
def readLoop {ε : Type} (delim : Char) (cols : Nat) :
    List (Except ε String) → Nat → List Cell → Except ReadErr (Nat × List Cell)
  | [], rows, data => Except.ok (rows, data)
  | Except.error _ :: _, rows, data => Except.ok (rows, data)
  | Except.ok line :: rest, rows, data =>
    match parseFields (splitCells delim line) with
    | Except.error e => Except.error e
    | Except.ok newLine =>
      if newLine.length ≠ cols then Except.error ReadErr.unexpectedEof
      else readLoop delim cols rest (rows + 1) (data ++ newLine)

/-- `Spreadsheet::read` (src/lib.rs lines 118-155) over a line source
modelled as a list of fallible lines (`BufReader::lines`); opening the file
is outside the model. The first element, when present, is consumed; it
provides the headers only when it is a successfully read line. -/
def Spreadsheet.read {ε : Type} (lines : List (Except ε String)) (delim : Char) :
    Except ReadErr Spreadsheet :=
  let headers : List String :=
    match lines.head? with
    | some (Except.ok headerLine) => splitCells delim headerLine
    | _ => []
  let cols := headers.length
  match readLoop delim cols (lines.drop 1) 0 [] with
  | Except.error e => Except.error e
  | Except.ok (rows, data) =>
    Except.ok { headers := headers, rows := rows, cols := cols, data := data }

deriving instance DecidableEq for Except

/-- A purely successful line source, for inputs without read failures. -/
def okLines (l : List String) : List (Except Unit String) := l.map Except.ok

/-- Rust `Iterator::position` on the header list (src/lib.rs line 80):
index of the first element equal to `name`, if any. -/
def position (name : String) : List String → Option Nat
  | [] => none
  | h :: t => if h = name then some 0 else (position name t).map (· + 1)

/-- Numeric indexing, `impl Index<NumericIndex> for Spreadsheet`
(src/lib.rs lines 70-75): `&self.data[row * self.cols + col]`. `none`
models the out-of-bounds slice-indexing panic. -/
def Spreadsheet.indexNumeric (s : Spreadsheet) (row col : Nat) : Option Cell :=
  s.data.get? (row * s.cols + col)

/-- Symbolic indexing, `impl Index<SymbolicIndex> for Spreadsheet`
(src/lib.rs lines 77-83): resolve the column name by a first-match scan of
the headers (`position` + `unwrap`), then index the flat buffer. `none`
models a panic, from the `unwrap` on a missing name or from the slice
indexing. -/
def Spreadsheet.indexSymbolic (s : Spreadsheet) (row : Nat) (col : String) : Option Cell :=
  match position col s.headers with
  | some c => s.data.get? (row * s.cols + c)
  | none => none

/-- State of `RowIter` (src/lib.rs lines 195-199). -/
structure RowIter where
  data : List Cell
  cols : Nat
  pos : Nat
  deriving DecidableEq

/-- `RowIter::next` (src/lib.rs lines 201-213): slice `data[start..end]`
with `start = pos * cols`, `end = start + cols`, yielded while
`end < data.len() + 1`. -/
def rowIterNext (it : RowIter) : Option (List Cell × RowIter) :=
  let start := it.pos * it.cols
  let stop := start + it.cols
  if stop < it.data.length + 1 then
    some ((it.data.drop start).take it.cols, { it with pos := it.pos + 1 })
  else none

/-- `Spreadsheet::iter_rows` (src/lib.rs lines 157-163). -/
def Spreadsheet.iter_rows (s : Spreadsheet) : RowIter :=
  { data := s.data, cols := s.cols, pos := 0 }

/-- State of `ColIter` (src/lib.rs lines 220-225). -/
structure ColIter where
  data : List Cell
  cols : Nat
  rows : Nat
  pos : Nat
  deriving DecidableEq

/-- The for-loop of `ColIter::next`: gather `data.get(r * cols + pos)` for
`r in 0..rows`, failing (via `?`) when any offset is out of bounds. -/
def colGather (data : List Cell) (cols pos : Nat) : Nat → Option (List Cell)
  | 0 => some []
  | r + 1 =>
    match colGather data cols pos r, data.get? (r * cols + pos) with
    | some vec, some c => some (vec ++ [c])
    | _, _ => none

/-- `ColIter::next` (src/lib.rs lines 227-237). -/
def colIterNext (it : ColIter) : Option (List Cell × ColIter) :=
  match colGather it.data it.cols it.pos it.rows with
  | some vec => some (vec, { it with pos := it.pos + 1 })
  | none => none

/-- `Spreadsheet::iter_cols` (src/lib.rs lines 165-172). -/
def Spreadsheet.iter_cols (s : Spreadsheet) : ColIter :=
  { data := s.data, cols := s.cols, rows := s.rows, pos := 0 }

/-- Direction of the single-direction cursor (src/lib.rs lines 239-243). -/
inductive Direction where
  | Column
  | Row
  deriving DecidableEq

/-- State of `Iter` (src/lib.rs lines 248-254). In Row mode the `rows`
field holds the starting row index and `pos` counts within the row. -/
structure Iter where
  data : List Cell
  cols : Nat
  rows : Nat
  pos : Nat
  dir : Direction
  deriving DecidableEq

/-- `Iter::next` (src/lib.rs lines 256-293): return None once `pos` reaches
the buffer length; in Column mode yield `data.get(pos)` and step by `cols`;
in Row mode additionally stop once `pos` reaches `cols`, and yield the
checked lookup `data.get(rows * cols + pos)` (whose None ends iteration). -/
def iterNext (it : Iter) : Option (Cell × Iter) :=
  if it.data.length ≤ it.pos then none
  else
    match it.dir with
    | Direction.Column =>
      match it.data.get? it.pos with
      | some c => some (c, { it with pos := it.pos + it.cols })
      | none => none
    | Direction.Row =>
      if it.cols ≤ it.pos then none
      else
        match it.data.get? (it.rows * it.cols + it.pos) with
        | some c => some (c, { it with pos := it.pos + 1 })
        | none => none

/-- `Spreadsheet::iter` (src/lib.rs lines 174-191): in Column mode the
cursor starts at buffer offset `pos`; in Row mode the starting row index is
stored in the `rows` field and the in-row position starts at 0. -/
def Spreadsheet.iter (s : Spreadsheet) (pos : Nat) (dir : Direction) : Iter :=
  match dir with
  | Direction.Column =>
    { data := s.data, cols := s.cols, rows := s.rows, pos := pos, dir := dir }
  | Direction.Row =>
    { data := s.data, cols := s.cols, rows := pos, pos := 0, dir := dir }

/-- Run an iterator step function with explicit fuel, stopping early at the
first `none`. For a finite iterator this is Rust `collect` once the fuel
reaches the iterator length; for a non-terminating iterator the output
keeps growing with the fuel. -/
def collectIter {σ α : Type} (next : σ → Option (α × σ)) : Nat → σ → List α
  | 0, _ => []
  | fuel + 1, st =>
    match next st with
    | none => []
    | some (a, st1) => a :: collectIter next fuel st1

/-- Cell of the flat buffer at a linear offset (total version, for stating
expected iterator outputs; `Cell.Empty` is an arbitrary default that is
never reached under the bounds hypotheses of the theorems below). -/
def cellAt (s : Spreadsheet) (i : Nat) : Cell := s.data.getD i Cell.Empty

/-- The contiguous cells of row `r` of the flat buffer. -/
def rowCells (s : Spreadsheet) (r : Nat) : List Cell :=
  (s.data.drop (r * s.cols)).take s.cols

/-- The cells of column `c`, gathered at offsets `c, c + cols, ...` across
the declared row count. -/
def colCells (s : Spreadsheet) (c : Nat) : List Cell :=
  (List.range s.rows).map (fun r => cellAt s (r * s.cols + c))

/-- The 4-by-3 table of the repository test fixture: headers x,y,z and the
integers 0..11 in row-major order (src/tests/test.rs). -/
def testTable : Spreadsheet :=
  ⟨["x", "y", "z"], 4, 3,
    [Cell.Integer 0, Cell.Integer 1, Cell.Integer 2,
     Cell.Integer 3, Cell.Integer 4, Cell.Integer 5,
     Cell.Integer 6, Cell.Integer 7, Cell.Integer 8,
     Cell.Integer 9, Cell.Integer 10, Cell.Integer 11]⟩

/-- The raw lines of the test fixture table. -/
def testLines : List String := ["x,y,z", "0,1,2", "3,4,5", "6,7,8", "9,10,11"]

/-- Table produced by reading an empty line source. -/
def emptyTable : Spreadsheet := ⟨[], 0, 0, []⟩

/-- Table produced by reading a header-only source. -/
def headerOnlyTable : Spreadsheet := ⟨["x", "y", "z"], 0, 3, []⟩

example : Spreadsheet.read (okLines testLines) ',' = Except.ok testTable := by decide
example : Spreadsheet.read (okLines []) ',' = Except.ok emptyTable := by decide
example : Spreadsheet.read (okLines ["x,y,z"]) ',' = Except.ok headerOnlyTable := by decide
example : collectIter rowIterNext 4 testTable.iter_rows =
    [rowCells testTable 0, rowCells testTable 1, rowCells testTable 2, rowCells testTable 3] := by
  decide
example : collectIter rowIterNext 2 emptyTable.iter_rows = [[], []] := by decide
example : collectIter colIterNext 4 headerOnlyTable.iter_cols = [[], [], [], []] := by decide
example : collectIter colIterNext 3 testTable.iter_cols =
    [colCells testTable 0, colCells testTable 1, colCells testTable 2] := by decide
example : collectIter iterNext 4 (testTable.iter 1 Direction.Column) =
    [Cell.Integer 1, Cell.Integer 4, Cell.Integer 7, Cell.Integer 10] := by decide
example : collectIter iterNext 3 (testTable.iter 1 Direction.Row) =
    [Cell.Integer 3, Cell.Integer 4, Cell.Integer 5] := by decide
example : iterNext (testTable.iter 4 Direction.Row) = none := by decide
example : testTable.indexNumeric 0 3 = some (Cell.Integer 3) := by decide
example : testTable.indexSymbolic 0 "x" = some (Cell.Integer 0) := by decide
example : testTable.indexSymbolic 0 "w" = none := by decide

example : parseCellE "0" = Except.ok (Cell.Integer 0) := by decide
example : parseCellE "1.5" = Except.ok (Cell.Float (F32Val.finite (mkRat 3 2))) := by decide
example : parseCellE "abc" = Except.ok (Cell.String "abc") := by decide
example : parseCellE "2147483648" = Except.ok (Cell.Float (F32Val.finite (mkRat 2147483648 1))) := by
  decide
example : parseCellE "-12" = Except.ok (Cell.Integer (-12)) := by decide
example :
    Spreadsheet.read (okLines ["x,y", "0,1", "ab,2.5"]) ',' =
    Except.ok ⟨["x", "y"], 2, 2,
      [Cell.Integer 0, Cell.Integer 1, Cell.String "ab",
        Cell.Float (F32Val.finite (mkRat 5 2))]⟩ := by
  decide
example :
    Spreadsheet.read (okLines ["x,y,z", "1,2"]) ',' =
    Except.error ReadErr.unexpectedEof := by decide
example :
    Spreadsheet.read [Except.ok "x", Except.error (), Except.ok "9"] ',' =
    Except.ok ⟨["x"], 0, 1, []⟩ := by decide

/-- Type inference never fails: the chain always reaches a constructor. -/
theorem parseCellE_eq_ok (s : String) : parseCellE s = Except.ok (inferCell s) := by
  unfold parseCellE inferCell parseStr
  cases parseI32 s <;> cases parseF32 s <;> rfl

/-- The field loop succeeds on every line, producing one cell per field. -/
theorem parseFields_eq_ok (fs : List String) :
    parseFields fs = Except.ok (fs.map inferCell) := by
  induction fs with
  | nil => rfl
  | cons f t ih => simp only [parseFields, parseCellE_eq_ok, ih, List.map]

/-- Loop invariant of the while-let loop: a successful run extends the
accumulated buffer by exactly `cols` cells per counted row. -/
theorem readLoop_len {ε : Type} (delim : Char) (cols : Nat) :
    ∀ (lines : List (Except ε String)) (rows : Nat) (data : List Cell)
      (rows1 : Nat) (data1 : List Cell),
      readLoop delim cols lines rows data = Except.ok (rows1, data1) →
      ∃ k, rows1 = rows + k ∧ data1.length = data.length + k * cols := by
  intro lines
  induction lines with
  | nil =>
    intro rows data rows1 data1 h
    obtain ⟨h1, h2⟩ := Prod.mk.injEq .. ▸ Except.ok.inj h
    exact ⟨0, by omega, by simp [← h2, h1]⟩
  | cons hd tl ih =>
    intro rows data rows1 data1 h
    match hd with
    | Except.error e =>
      obtain ⟨h1, h2⟩ := Prod.mk.injEq .. ▸ Except.ok.inj h
      exact ⟨0, by omega, by simp [← h2, h1]⟩
    | Except.ok line =>
      simp only [readLoop, parseFields_eq_ok] at h
      by_cases hlen : ((splitCells delim line).map inferCell).length ≠ cols
      · rw [if_pos hlen] at h; exact absurd h (by simp)
      · rw [if_neg hlen] at h
        push_neg at hlen
        obtain ⟨k, hk1, hk2⟩ := ih (rows + 1) (data ++ (splitCells delim line).map inferCell)
          rows1 data1 h
        refine ⟨k + 1, by omega, ?_⟩
        rw [hk2, List.length_append, hlen]
        ring

/-- C1: every table returned by `Spreadsheet::read` satisfies
`data.len() == rows * cols`, so the cell at logical position (row, col)
lives at linear offset `row * cols + col` of the flat row-major buffer;
the table is never mutated afterwards, so the invariant holds for its
lifetime. -/
theorem read_data_len {ε : Type} (lines : List (Except ε String)) (delim : Char)
    (t : Spreadsheet) (h : Spreadsheet.read lines delim = Except.ok t) :
    t.data.length = t.rows * t.cols := by
  rw [Spreadsheet.read] at h
  cases hl : readLoop delim
      (match lines.head? with
        | some (Except.ok headerLine) => splitCells delim headerLine
        | _ => []).length (lines.drop 1) 0 [] with
  | error e => rw [hl] at h; exact absurd h (by simp)
  | ok p =>
    obtain ⟨rows1, data1⟩ := p
    rw [hl] at h
    obtain ⟨k, hk1, hk2⟩ := readLoop_len delim _ _ _ _ _ _ hl
    cases Except.ok.inj h
    simp only [List.length_nil, Nat.zero_add] at hk1 hk2
    simp [hk1, hk2]

/-- C1 witness: the invariant at the concrete test fixture. -/
theorem read_data_len_witness :
    Spreadsheet.read (okLines testLines) ',' = Except.ok testTable ∧
      testTable.data.length = testTable.rows * testTable.cols :=
  ⟨by decide, read_data_len (okLines testLines) ',' testTable (by decide)⟩

/-- The while-let loop simply stops at the first read error: the error and
everything after it are ignored, and the loop reports success with
whatever was accumulated before it. -/
theorem readLoop_stops_at_error {ε : Type} (delim : Char) (cols : Nat) (e : ε)
    (more : List (Except ε String)) :
    ∀ (pre : List String) (rows : Nat) (data : List Cell),
      readLoop delim cols (pre.map Except.ok ++ Except.error e :: more) rows data =
        readLoop delim cols (pre.map (Except.ok : String → Except ε String)) rows data := by
  intro pre
  induction pre with
  | nil => intro rows data; rfl
  | cons l t ih =>
    intro rows data
    simp only [List.map, List.cons_append, readLoop, parseFields_eq_ok]
    by_cases hlen : ((splitCells delim l).map inferCell).length ≠ cols
    · rw [if_pos hlen, if_pos hlen]
    · rw [if_neg hlen, if_neg hlen]
      exact ih _ _

/-- C2 counterexample: a line source whose third line read fails. The claim
demands that the failure propagate as a terminal error with no table; the
code instead returns Ok with the partial table built from the prefix read
before the failure (here one data row). -/
theorem read_error_swallowed_cex :
    Spreadsheet.read [Except.ok "x", Except.ok "1", Except.error (), Except.ok "2"] ',' =
      Except.ok ⟨["x"], 1, 1, [Cell.Integer 1]⟩ := by decide

/-- C2 amended: a line read failure after the header is never propagated:
the while-let loop merely stops there, so reading a source with an error
line returns exactly what reading the successfully-read prefix returns —
in particular a partial table is exposed whenever that prefix is
structurally valid. -/
theorem read_ignores_error_tail {ε : Type} (delim : Char) (headerLine : String)
    (pre : List String) (e : ε) (more : List (Except ε String)) :
    Spreadsheet.read (Except.ok headerLine :: (pre.map Except.ok ++ Except.error e :: more)) delim =
      Spreadsheet.read (Except.ok headerLine :: pre.map (Except.ok : String → Except ε String))
        delim := by
  rw [Spreadsheet.read, Spreadsheet.read]
  simp only [List.head?, List.drop]
  rw [readLoop_stops_at_error]

/-- C3 counterexample: the field 2147483648 = 2^31 is a valid integer
literal within the signed 64-bit range, so the claim demands
Integer(2147483648); the code parses with i32, whose range ends at
2^31 - 1, so the integer conversion fails and the float conversion stores
Float(2147483648.0) instead. -/
theorem parse_width_cex :
    parseCellE "2147483648" = Except.ok (Cell.Float (F32Val.finite 2147483648)) ∧
      parseCellE "2147483648" ≠ Except.ok (Cell.Integer 2147483648) := by
  constructor
  · rw [(by decide : (2147483648 : ℚ) = mkRat 2147483648 1)]
    decide
  · decide

/-- C3 amended: type inference tries the conversions in the fixed order
32-bit signed integer (the whole field: optional sign, digits, within i32
range), then 32-bit float, then text verbatim as an always-succeeding
fallback, so no field content can fail; "0","1","2" give Integer 0,1,2,
"1.5" gives Float(1.5) and "abc" gives Text("abc"). -/
theorem parse_precedence :
    (∀ s : String, ∃ c, parseCellE s = Except.ok c) ∧
    (∀ (s : String) (x : Int), parseI32 s = some x →
      parseCellE s = Except.ok (Cell.Integer x)) ∧
    (∀ (s : String) (v : F32Val), parseI32 s = none → parseF32 s = some v →
      parseCellE s = Except.ok (Cell.Float v)) ∧
    (∀ s : String, parseI32 s = none → parseF32 s = none →
      parseCellE s = Except.ok (Cell.String s)) ∧
    parseCellE "0" = Except.ok (Cell.Integer 0) ∧
    parseCellE "1" = Except.ok (Cell.Integer 1) ∧
    parseCellE "2" = Except.ok (Cell.Integer 2) ∧
    parseCellE "1.5" = Except.ok (Cell.Float (F32Val.finite (3 / 2))) ∧
    parseCellE "abc" = Except.ok (Cell.String "abc") := by
  refine ⟨fun s => ⟨inferCell s, parseCellE_eq_ok s⟩, ?_, ?_, ?_, by decide, by decide,
    by decide, ?_, by decide⟩
  · intro s x hI; simp [parseCellE, hI]
  · intro s v hI hF; simp [parseCellE, hI, hF]
  · intro s hI hF; simp [parseCellE, hI, hF, parseStr]
  · rw [(by norm_num [Rat.mkRat_eq_div] : (3 / 2 : ℚ) = mkRat 3 2)]
    decide

/-- C3 witness: the fallback clause of the amended theorem applied at a
concrete field. -/
theorem parse_precedence_witness : ∃ c, parseCellE "q7w" = Except.ok c :=
  parse_precedence.1 "q7w"

/-- A body containing a line whose field count differs from the header
count drives the while-let loop to the structural-mismatch error, provided
every line of the body is successfully read. -/
theorem readLoop_mismatch (delim : Char) (cols : Nat) :
    ∀ (body : List String) (rows : Nat) (data : List Cell),
      (∃ l ∈ body, (splitCells delim l).length ≠ cols) →
      readLoop delim cols (body.map (Except.ok : String → Except Unit String)) rows data =
        Except.error ReadErr.unexpectedEof := by
  intro body
  induction body with
  | nil => rintro rows data ⟨l, hl, -⟩; exact absurd hl (List.not_mem_nil l)
  | cons l t ih =>
    rintro rows data ⟨w, hw, hne⟩
    simp only [List.map, readLoop, parseFields_eq_ok]
    by_cases hl : ((splitCells delim l).map inferCell).length ≠ cols
    · rw [if_pos hl]
    · rw [if_neg hl]
      rw [List.length_map] at hl
      push_neg at hl
      rcases List.mem_cons.1 hw with hwl | hwt
      · exact absurd (hwl ▸ hne) (by simp [hl])
      · exact ih _ _ ⟨w, hwt, hne⟩

/-- C4: if the header line has n fields and some data line splits into a
field count different from n, `Spreadsheet::read` fails with the
structural-mismatch error (UnexpectedEof) and returns no table. -/
theorem read_mismatch_fails (delim : Char) (headerLine : String) (body : List String)
    (h : ∃ l ∈ body, (splitCells delim l).length ≠ (splitCells delim headerLine).length) :
    Spreadsheet.read ((headerLine :: body).map (Except.ok : String → Except Unit String))
      delim = Except.error ReadErr.unexpectedEof := by
  rw [Spreadsheet.read]
  simp only [List.map, List.head?, List.drop]
  rw [readLoop_mismatch delim _ body 0 [] h]

/-- C4 witness: the claim's own instance, header x,y,z followed by the
two-field row 1,2. -/
theorem read_mismatch_fails_witness :
    (∃ l ∈ ["1,2"], (splitCells ',' l).length ≠ (splitCells ',' "x,y,z").length) ∧
      Spreadsheet.read ((["x,y,z", "1,2"]).map (Except.ok : String → Except Unit String)) ',' =
        Except.error ReadErr.unexpectedEof :=
  ⟨by decide, read_mismatch_fails ',' "x,y,z" ["1,2"] (by decide)⟩

/-- C5 counterexample: on the 4-by-3 test table, the numeric index
(0, 3) is out of range (col = 3 ≥ cols = 3), yet the access does not fail:
the linear offset 0 * 3 + 3 = 3 is still inside the buffer, so indexing
silently returns the cell at logical position (1, 0). -/
theorem indexNumeric_alias_cex :
    testTable.cols = 3 ∧
      Spreadsheet.indexNumeric testTable 0 3 = some (Cell.Integer 3) := by decide

/-- C5 amended: numeric indexing returns the cell at linear offset
`row * cols + col` whenever row < rows and col < cols, and the
out-of-bounds trap (`none`) occurs exactly when the linear offset reaches
`rows * cols`; an out-of-range column whose linear offset is still inside
the buffer aliases a cell of a later row instead of trapping. -/
theorem indexNumeric_spec (s : Spreadsheet) (h : s.data.length = s.rows * s.cols)
    (r c : Nat) :
    (r < s.rows → c < s.cols →
      s.indexNumeric r c = some (cellAt s (r * s.cols + c))) ∧
    (s.indexNumeric r c = none ↔ s.rows * s.cols ≤ r * s.cols + c) := by
  constructor
  · intro hr hc
    have hi : r * s.cols + c < s.data.length := by
      rw [h]
      calc r * s.cols + c < r * s.cols + s.cols := Nat.add_lt_add_left hc _
        _ = (r + 1) * s.cols := (Nat.succ_mul r s.cols).symm
        _ ≤ s.rows * s.cols := Nat.mul_le_mul_right _ (Nat.succ_le_of_lt hr)
    rw [Spreadsheet.indexNumeric]
    cases hg : s.data.get? (r * s.cols + c) with
    | none => rw [List.get?_eq_none] at hg; omega
    | some a => rw [cellAt, List.getD, hg]; rfl
  · rw [Spreadsheet.indexNumeric, List.get?_eq_none, h]

/-- C5 witness: the in-bounds clause of the amended theorem at the test
table. -/
theorem indexNumeric_spec_witness :
    Spreadsheet.indexNumeric testTable 1 2 = some (cellAt testTable (1 * testTable.cols + 2)) :=
  (indexNumeric_spec testTable (by decide) 1 2).1 (by decide) (by decide)

/-- The first-match scan returns the position of the first occurrence. -/
theorem position_eq_some_of_first (name : String) :
    ∀ (l : List String) (c : Nat), l.get? c = some name →
      (∀ j, j < c → l.get? j ≠ some name) → position name l = some c := by
  intro l
  induction l with
  | nil => intro c hc; simp [List.get?] at hc
  | cons h t ih =>
    intro c hc hfirst
    cases c with
    | zero =>
      rw [List.get?] at hc
      rw [position, if_pos (Option.some.inj hc)]
    | succ c1 =>
      have hh : h ≠ name := by
        intro he
        exact hfirst 0 (Nat.succ_pos c1) (by rw [List.get?, he])
      rw [position, if_neg hh,
        ih c1 (by rw [List.get?] at hc; exact hc)
          (fun j hj hg => hfirst (j + 1) (Nat.succ_lt_succ hj) (by rw [List.get?]; exact hg))]
      rfl

/-- The first-match scan fails exactly on absent names. -/
theorem position_eq_none (name : String) :
    ∀ l : List String, name ∉ l → position name l = none := by
  intro l
  induction l with
  | nil => intro; rfl
  | cons h t ih =>
    intro hn
    rw [position, if_neg (fun he => hn (by rw [← he]; exact List.mem_cons_self h t)),
      ih (fun ht => hn (List.mem_cons_of_mem h ht))]
    rfl

/-- C6: symbolic indexing resolves the column name to the position of the
first matching header (first match even under duplicate names) and then
returns exactly what the numeric index returns at that position; an absent
name is a fatal indexing error (the `unwrap` panic, modelled `none`). -/
theorem indexSymbolic_spec (s : Spreadsheet) (r : Nat) (name : String) :
    (∀ c : Nat, s.headers.get? c = some name →
      (∀ j, j < c → s.headers.get? j ≠ some name) →
      s.indexSymbolic r name = s.indexNumeric r c) ∧
    (name ∉ s.headers → s.indexSymbolic r name = none) := by
  constructor
  · intro c hc hfirst
    rw [Spreadsheet.indexSymbolic, position_eq_some_of_first name s.headers c hc hfirst]
    rfl
  · intro hn
    rw [Spreadsheet.indexSymbolic, position_eq_none name s.headers hn]

/-- C6 witness: resolving the duplicate-free header y of the test table to
column 1 and delegating to the numeric index. -/
theorem indexSymbolic_spec_witness :
    Spreadsheet.indexSymbolic testTable 0 "y" = Spreadsheet.indexNumeric testTable 0 1 :=
  (indexSymbolic_spec testTable 0 "y").1 1 (by decide)
    (fun j hj => by interval_cases j; decide)

/-- Collected output of `RowIter` from an arbitrary starting row: one
contiguous `cols`-cell slice per remaining row, provided the column count
is positive (with `cols = 0` the iterator never stops). -/
theorem collect_rowIter (data : List Cell) (cols rows : Nat) (hc : 0 < cols)
    (h : data.length = rows * cols) :
    ∀ (fuel p : Nat), rows - p ≤ fuel →
      collectIter rowIterNext fuel ⟨data, cols, p⟩ =
        (List.range' p (rows - p)).map (fun r => (data.drop (r * cols)).take cols) := by
  intro fuel
  induction fuel with
  | zero =>
    intro p hp
    rw [Nat.le_zero.mp hp]
    rfl
  | succ n ih =>
    intro p hp
    by_cases hlt : p < rows
    · have hcond : p * cols + cols < data.length + 1 := by
        have h1 : (p + 1) * cols ≤ rows * cols := Nat.mul_le_mul_right _ hlt
        rw [Nat.succ_mul] at h1
        omega
      have hstep : rowIterNext ⟨data, cols, p⟩ =
          some ((data.drop (p * cols)).take cols, ⟨data, cols, p + 1⟩) := by
        simp only [rowIterNext, if_pos hcond]
      rw [collectIter, hstep]
      show (data.drop (p * cols)).take cols ::
          collectIter rowIterNext n ⟨data, cols, p + 1⟩ =
        (List.range' p (rows - p)).map (fun r => (data.drop (r * cols)).take cols)
      rw [ih (p + 1) (by omega)]
      have hrg : rows - p = (rows - (p + 1)) + 1 := by omega
      rw [hrg, List.range'_succ]
      rfl
    · have hcond : ¬(p * cols + cols < data.length + 1) := by
        have h1 : rows * cols ≤ p * cols := Nat.mul_le_mul_right _ (le_of_not_lt hlt)
        omega
      have hstop : rowIterNext ⟨data, cols, p⟩ = none := by
        simp only [rowIterNext, if_neg hcond]
      rw [collectIter, hstop, Nat.sub_eq_zero_of_le (le_of_not_lt hlt)]
      rfl

/-- C7 counterexample: the table read from an empty source has
`rows = 0`, so the claim demands that its row iterator yield no element;
instead the very first `next` yields an (empty) slice — with `cols = 0`
the stopping test `end < data.len() + 1` never fails, and the iterator
never terminates. -/
theorem iter_rows_empty_cex :
    Spreadsheet.read (okLines []) ',' = Except.ok emptyTable ∧ emptyTable.rows = 0 ∧
      rowIterNext emptyTable.iter_rows = some ([], ⟨[], 0, 1⟩) := by decide

/-- C7 amended: for every table with a positive column count (every table
whose header line is nonempty), the row iterator yields exactly `rows`
elements, the i-th being the contiguous `cols`-cell slice of row i starting
at row 0; with `cols = 0` the iterator instead yields empty slices
forever. -/
theorem iter_rows_spec (s : Spreadsheet) (h : s.data.length = s.rows * s.cols)
    (hc : 0 < s.cols) (fuel : Nat) (hf : s.rows ≤ fuel) :
    collectIter rowIterNext fuel s.iter_rows = (List.range s.rows).map (rowCells s) ∧
      (collectIter rowIterNext fuel s.iter_rows).length = s.rows := by
  have hmain : collectIter rowIterNext fuel s.iter_rows =
      (List.range s.rows).map (rowCells s) := by
    have := collect_rowIter s.data s.cols s.rows hc h fuel 0 (by omega)
    rw [Spreadsheet.iter_rows]
    rw [this, Nat.sub_zero, ← List.range_eq_range']
    rfl
  exact ⟨hmain, by rw [hmain, List.length_map, List.length_range]⟩

/-- C7 witness: the 4-by-3 test table, whose four row slices are the
claimed ones (row 0 = 0,1,2 and row 1 = 3,4,5). -/
theorem iter_rows_spec_witness :
    collectIter rowIterNext 4 testTable.iter_rows =
      [[Cell.Integer 0, Cell.Integer 1, Cell.Integer 2],
       [Cell.Integer 3, Cell.Integer 4, Cell.Integer 5],
       [Cell.Integer 6, Cell.Integer 7, Cell.Integer 8],
       [Cell.Integer 9, Cell.Integer 10, Cell.Integer 11]] :=
  ((iter_rows_spec testTable (by decide) (by decide) 4 (by decide)).1).trans (by decide)

/-- The column-gathering loop succeeds when every visited offset is inside
the buffer, producing the cells of the column in row order. -/
theorem colGather_eq_some (data : List Cell) (cols p : Nat) :
    ∀ rows : Nat, (∀ r, r < rows → r * cols + p < data.length) →
      colGather data cols p rows =
        some ((List.range rows).map (fun r => data.getD (r * cols + p) Cell.Empty)) := by
  intro rows
  induction rows with
  | zero => intro; rfl
  | succ n ih =>
    intro hall
    rw [colGather, ih (fun r hr => hall r (Nat.lt_succ_of_lt hr))]
    have hn : n * cols + p < data.length := hall n (Nat.lt_succ_self n)
    cases hg : data.get? (n * cols + p) with
    | none => rw [List.get?_eq_none] at hg; omega
    | some a =>
      show some (_ ++ [a]) = _
      rw [List.range_succ, List.map_append]
      have : data.getD (n * cols + p) Cell.Empty = a := by rw [List.getD, hg]; rfl
      rw [List.map_singleton, this]

/-- The column-gathering loop fails as soon as one visited offset is out of
bounds. -/
theorem colGather_eq_none (data : List Cell) (cols p : Nat) :
    ∀ (rows r0 : Nat), r0 < rows → data.length ≤ r0 * cols + p →
      colGather data cols p rows = none := by
  intro rows
  induction rows with
  | zero => intro r0 h0; omega
  | succ n ih =>
    intro r0 h0 hlen
    rw [colGather]
    by_cases hr0 : r0 = n
    · rw [List.get?_eq_none.2 (hr0 ▸ hlen)]
      cases colGather data cols p n <;> rfl
    · rw [ih r0 (by omega) hlen]

/-- Collected output of `ColIter` from an arbitrary starting column: one
gathered column per remaining column index, provided the row count is
positive (with `rows = 0` the gather loop is empty and never fails, so the
iterator never stops). -/
theorem collect_colIter (data : List Cell) (cols rows : Nat) (hr : 0 < rows)
    (h : data.length = rows * cols) :
    ∀ (fuel p : Nat), cols - p ≤ fuel →
      collectIter colIterNext fuel ⟨data, cols, rows, p⟩ =
        (List.range' p (cols - p)).map
          (fun c => (List.range rows).map (fun r => data.getD (r * cols + c) Cell.Empty)) := by
  intro fuel
  induction fuel with
  | zero =>
    intro p hp
    rw [Nat.le_zero.mp hp]
    rfl
  | succ n ih =>
    intro p hp
    by_cases hlt : p < cols
    · have hall : ∀ r, r < rows → r * cols + p < data.length := by
        intro r hrr
        have h1 : (r + 1) * cols ≤ rows * cols := Nat.mul_le_mul_right _ hrr
        rw [Nat.succ_mul] at h1
        omega
      have hstep : colIterNext ⟨data, cols, rows, p⟩ =
          some ((List.range rows).map (fun r => data.getD (r * cols + p) Cell.Empty),
            ⟨data, cols, rows, p + 1⟩) := by
        rw [colIterNext, colGather_eq_some data cols p rows hall]
      rw [collectIter, hstep]
      show (List.range rows).map (fun r => data.getD (r * cols + p) Cell.Empty) ::
          collectIter colIterNext n ⟨data, cols, rows, p + 1⟩ = _
      rw [ih (p + 1) (by omega)]
      have hrg : cols - p = (cols - (p + 1)) + 1 := by omega
      rw [hrg, List.range'_succ]
      rfl
    · have hlast : data.length ≤ (rows - 1) * cols + p := by
        have h1 : (rows - 1) * cols + cols = rows * cols := by
          rw [← Nat.succ_mul, Nat.succ_eq_add_one, Nat.sub_add_cancel hr]
        omega
      have hstop : colIterNext ⟨data, cols, rows, p⟩ = none := by
        rw [colIterNext, colGather_eq_none data cols p rows (rows - 1) (by omega) hlast]
      rw [collectIter, hstop, Nat.sub_eq_zero_of_le (le_of_not_lt hlt)]
      rfl

/-- C8 counterexample: the header-only table x,y,z has `cols = 3`, so the
claim demands exactly three elements from the column iterator; with
`rows = 0` the gathering loop is empty and never hits the out-of-bounds
stop, so the iterator yields empty columns forever — already four elements
under fuel 4. -/
theorem iter_cols_header_only_cex :
    Spreadsheet.read (okLines ["x,y,z"]) ',' = Except.ok headerOnlyTable ∧
      headerOnlyTable.cols = 3 ∧
      collectIter colIterNext 4 headerOnlyTable.iter_cols = [[], [], [], []] := by decide

/-- C8 amended: for every table with a positive row count, the column
iterator yields exactly `cols` elements, the j-th being the freshly
gathered cells of column j at offsets j, j + cols, ... over rows 0..rows;
with `rows = 0` the iterator instead yields empty columns forever. -/
theorem iter_cols_spec (s : Spreadsheet) (h : s.data.length = s.rows * s.cols)
    (hr : 0 < s.rows) (fuel : Nat) (hf : s.cols ≤ fuel) :
    collectIter colIterNext fuel s.iter_cols = (List.range s.cols).map (colCells s) ∧
      (collectIter colIterNext fuel s.iter_cols).length = s.cols := by
  have hmain : collectIter colIterNext fuel s.iter_cols =
      (List.range s.cols).map (colCells s) := by
    have := collect_colIter s.data s.cols s.rows hr h fuel 0 (by omega)
    rw [Spreadsheet.iter_cols]
    rw [this, Nat.sub_zero, ← List.range_eq_range']
    rfl
  exact ⟨hmain, by rw [hmain, List.length_map, List.length_range]⟩

/-- C8 witness: the 4-by-3 test table, whose three gathered columns are the
claimed ones (column 0 = 0,3,6,9 and column 1 = 1,4,7,10). -/
theorem iter_cols_spec_witness :
    collectIter colIterNext 3 testTable.iter_cols =
      [[Cell.Integer 0, Cell.Integer 3, Cell.Integer 6, Cell.Integer 9],
       [Cell.Integer 1, Cell.Integer 4, Cell.Integer 7, Cell.Integer 10],
       [Cell.Integer 2, Cell.Integer 5, Cell.Integer 8, Cell.Integer 11]] :=
  ((iter_cols_spec testTable (by decide) (by decide) 3 (by decide)).1).trans (by decide)

/-- Collected output of the cursor in Column mode from any remaining-row
position: the cells at offsets c, c + cols, ... until the buffer end. -/
theorem collect_iter_col (data : List Cell) (cols rows c : Nat) (hc : c < cols)
    (h : data.length = rows * cols) :
    ∀ (fuel k : Nat), rows - k ≤ fuel →
      collectIter iterNext fuel ⟨data, cols, rows, k * cols + c, Direction.Column⟩ =
        (List.range' k (rows - k)).map (fun r => data.getD (r * cols + c) Cell.Empty) := by
  intro fuel
  induction fuel with
  | zero => intro k hk; rw [Nat.le_zero.mp hk]; rfl
  | succ n ih =>
    intro k hk
    by_cases hlt : k < rows
    · have hpos : k * cols + c < data.length := by
        have h1 : (k + 1) * cols ≤ rows * cols := Nat.mul_le_mul_right _ hlt
        rw [Nat.succ_mul] at h1
        omega
      have hg : data.get? (k * cols + c) = some (data.getD (k * cols + c) Cell.Empty) := by
        cases hgg : data.get? (k * cols + c) with
        | none => rw [List.get?_eq_none] at hgg; omega
        | some a => rw [List.getD, hgg]; rfl
      have hstep : iterNext ⟨data, cols, rows, k * cols + c, Direction.Column⟩ =
          some (data.getD (k * cols + c) Cell.Empty,
            ⟨data, cols, rows, k * cols + c + cols, Direction.Column⟩) := by
        simp only [iterNext, hg]
        rw [if_neg (by omega : ¬data.length ≤ k * cols + c)]
      rw [collectIter, hstep]
      show data.getD (k * cols + c) Cell.Empty ::
          collectIter iterNext n ⟨data, cols, rows, k * cols + c + cols, Direction.Column⟩ =
        (List.range' k (rows - k)).map (fun r => data.getD (r * cols + c) Cell.Empty)
      rw [(by ring : k * cols + c + cols = (k + 1) * cols + c), ih (k + 1) (by omega)]
      rw [(by omega : rows - k = (rows - (k + 1)) + 1), List.range'_succ]
      rfl
    · have hge : data.length ≤ k * cols + c := by
        have h1 : rows * cols ≤ k * cols := Nat.mul_le_mul_right _ (le_of_not_lt hlt)
        omega
      have hstop : iterNext ⟨data, cols, rows, k * cols + c, Direction.Column⟩ = none := by
        simp only [iterNext]
        rw [if_pos hge]
      rw [collectIter, hstop, Nat.sub_eq_zero_of_le (le_of_not_lt hlt)]
      rfl

/-- Collected output of the cursor in Row mode from any in-row position of
a valid row: the remaining contiguous cells of that row, exactly up to the
cols-th. -/
theorem collect_iter_row (data : List Cell) (cols rows r : Nat) (hr : r < rows)
    (h : data.length = rows * cols) :
    ∀ (fuel p : Nat), cols - p ≤ fuel →
      collectIter iterNext fuel ⟨data, cols, r, p, Direction.Row⟩ =
        (List.range' p (cols - p)).map (fun j => data.getD (r * cols + j) Cell.Empty) := by
  intro fuel
  induction fuel with
  | zero => intro p hp; rw [Nat.le_zero.mp hp]; rfl
  | succ n ih =>
    intro p hp
    by_cases hlt : p < cols
    · have hlen : p < data.length := by
        have h1 : 1 * cols ≤ rows * cols := Nat.mul_le_mul_right _ (by omega : 1 ≤ rows)
        omega
      have hidx : r * cols + p < data.length := by
        have h1 : (r + 1) * cols ≤ rows * cols := Nat.mul_le_mul_right _ hr
        rw [Nat.succ_mul] at h1
        omega
      have hg : data.get? (r * cols + p) = some (data.getD (r * cols + p) Cell.Empty) := by
        cases hgg : data.get? (r * cols + p) with
        | none => rw [List.get?_eq_none] at hgg; omega
        | some a => rw [List.getD, hgg]; rfl
      have hstep : iterNext ⟨data, cols, r, p, Direction.Row⟩ =
          some (data.getD (r * cols + p) Cell.Empty, ⟨data, cols, r, p + 1, Direction.Row⟩) := by
        simp only [iterNext, hg]
        rw [if_neg (not_le_of_lt hlen), if_neg (not_le_of_lt hlt)]
      rw [collectIter, hstep]
      show data.getD (r * cols + p) Cell.Empty ::
          collectIter iterNext n ⟨data, cols, r, p + 1, Direction.Row⟩ =
        (List.range' p (cols - p)).map (fun j => data.getD (r * cols + j) Cell.Empty)
      rw [ih (p + 1) (by omega)]
      rw [(by omega : cols - p = (cols - (p + 1)) + 1), List.range'_succ]
      rfl
    · have hstop : iterNext ⟨data, cols, r, p, Direction.Row⟩ = none := by
        by_cases hdl : data.length ≤ p
        · simp only [iterNext]
          rw [if_pos hdl]
        · simp only [iterNext]
          rw [if_neg hdl, if_pos (le_of_not_lt hlt)]
      rw [collectIter, hstop, Nat.sub_eq_zero_of_le (le_of_not_lt hlt)]
      rfl

/-- C9: the single-direction cursor in Column mode started at column c
yields the cells at offsets c, c + cols, c + 2*cols, ... stopping at the
end of the data buffer (one per row of the well-formed table); in Row mode
started at a valid row r it yields that row's cols contiguous cells,
stopping after cols elements and never reading past its own row. -/
theorem iter_spec (s : Spreadsheet) (h : s.data.length = s.rows * s.cols) :
    (∀ c, c < s.cols → ∀ fuel, s.rows ≤ fuel →
      collectIter iterNext fuel (s.iter c Direction.Column) = colCells s c) ∧
    (∀ r, r < s.rows → ∀ fuel, s.cols ≤ fuel →
      collectIter iterNext fuel (s.iter r Direction.Row) =
        (List.range s.cols).map (fun j => cellAt s (r * s.cols + j))) := by
  constructor
  · intro c hc fuel hf
    have hcol := collect_iter_col s.data s.cols s.rows c hc h fuel 0 (by omega)
    simp only [Nat.zero_mul, Nat.zero_add] at hcol
    rw [show s.iter c Direction.Column = ⟨s.data, s.cols, s.rows, c, Direction.Column⟩ from rfl,
      hcol, Nat.sub_zero, ← List.range_eq_range']
    rfl
  · intro r hr fuel hf
    have hrow := collect_iter_row s.data s.cols s.rows r hr h fuel 0 (by omega)
    rw [show s.iter r Direction.Row = ⟨s.data, s.cols, r, 0, Direction.Row⟩ from rfl,
      hrow, Nat.sub_zero, ← List.range_eq_range']
    rfl

/-- C9 witness: on the 4-by-3 test table, Column mode at column 1 yields
1,4,7,10 and Row mode at row 1 yields 3,4,5. -/
theorem iter_spec_witness :
    collectIter iterNext 4 (testTable.iter 1 Direction.Column) =
      [Cell.Integer 1, Cell.Integer 4, Cell.Integer 7, Cell.Integer 10] ∧
    collectIter iterNext 3 (testTable.iter 1 Direction.Row) =
      [Cell.Integer 3, Cell.Integer 4, Cell.Integer 5] :=
  ⟨((iter_spec testTable (by decide)).1 1 (by decide) 4 (by decide)).trans (by decide),
   ((iter_spec testTable (by decide)).2 1 (by decide) 3 (by decide)).trans (by decide)⟩

/-- C10: starting the Row-mode cursor at a row index at or past the row
count yields no cells and terminates normally: the very first `next`
returns None (every element access is a checked `get`, so, unlike the
indexers, nothing panics), and collecting under any fuel gives the empty
list. -/
theorem iter_row_oob (s : Spreadsheet) (h : s.data.length = s.rows * s.cols) (r : Nat)
    (hr : s.rows ≤ r) :
    iterNext (s.iter r Direction.Row) = none ∧
      ∀ fuel, collectIter iterNext fuel (s.iter r Direction.Row) = [] := by
  have hn : iterNext (s.iter r Direction.Row) = none := by
    rw [show s.iter r Direction.Row = ⟨s.data, s.cols, r, 0, Direction.Row⟩ from rfl]
    by_cases h0 : s.data.length ≤ 0
    · simp only [iterNext]
      rw [if_pos h0]
    · have hcpos : 0 < s.cols := by
        rcases Nat.eq_zero_or_pos s.cols with hc0 | hcp
        · rw [hc0, Nat.mul_zero] at h; omega
        · exact hcp
      have hgey : s.data.get? (r * s.cols + 0) = none := by
        refine List.get?_eq_none.2 ?_
        have h1 : s.rows * s.cols ≤ r * s.cols := Nat.mul_le_mul_right _ hr
        omega
      simp only [iterNext, hgey]
      rw [if_neg h0, if_neg (by omega : ¬s.cols ≤ 0)]
  refine ⟨hn, fun fuel => ?_⟩
  cases fuel with
  | zero => rfl
  | succ n => rw [collectIter, hn]

/-- C10 witness: row index 4 equals the test table's row count, and the
cursor immediately reports exhaustion. -/
theorem iter_row_oob_witness :
    iterNext (testTable.iter 4 Direction.Row) = none :=
  (iter_row_oob testTable (by decide) 4 (by decide)).1

end Spread
